import Mathlib

/-!
Verification of the YT-DL-Bot repository against its natural-language
specification.  The Python source is shallowly embedded: pure logic becomes
Lean functions, the filesystem / network / chat-transport effects become
explicit parameters (directory listings, exception oracles, probe results),
and Python exceptions become `Except` values.  Machine floats appear only in
the height-tolerance formula `max(height * 0.1, 50)`; for every canonical
height in `RESOLUTIONS` that float evaluates exactly to the integer
`max(height / 10, 50)` (the products 72.0, 108.0, 144.0, 216.0 are exact
doubles and the sub-50 cases are dominated by 50), and it is compared against
an integer difference, so the embedding uses exact integer arithmetic.
-/

namespace YtDlBot

/-! ## Format resolver (`bot/services/youtube.py`) -/

/-- Embeds `YouTubeService.RESOLUTIONS` (youtube.py lines 25-34): the fixed
table of standard quality labels and their canonical pixel heights, in the
dictionary's insertion order, which is ascending in height. -/
def RESOLUTIONS : List (String × Int) :=
  [("144p", 144), ("240p", 240), ("360p", 360), ("480p", 480),
   ("720p", 720), ("1080p", 1080), ("1440p", 1440), ("2160p", 2160)]

/-- Embeds the tolerance `max(height * 0.1, 50)` of youtube.py line 145.
For the canonical heights in `RESOLUTIONS` this equals the float value
exactly (see the file header). -/
def tolerance (height : Int) : Int := max (height / 10) 50

/-- Embeds the inner loop of youtube.py lines 142-147: a standard height
matches when some available stream height differs from it by at most the
tolerance.  (The Python loop iterates `sorted(available_heights)` and breaks
on the first hit; only existence matters for the result.) -/
def heightMatches (availableHeights : List Int) (height : Int) : Bool :=
  availableHeights.any fun availableHeight =>
    |availableHeight - height| ≤ tolerance height

/-- Embeds `max(available_heights) if available_heights else 720`
(youtube.py line 152). -/
def maxHeight (availableHeights : List Int) : Int :=
  match availableHeights with
  | [] => 720
  | h :: t => t.foldl max h

/-- Embeds the sort key `lambda x: self.RESOLUTIONS[x]` of youtube.py
line 158; it is only ever applied to keys of `RESOLUTIONS`. -/
def resolutionKey (label : String) : Int :=
  (RESOLUTIONS.lookup label).getD 0

/-- Inserts a label into a list sorted by `resolutionKey`, before the first
strictly larger key (the stable-insertion step of `sortByHeight`). -/
def insertByHeight (a : String) : List String → List String
  | [] => [a]
  | b :: t =>
    if resolutionKey a ≤ resolutionKey b then a :: b :: t
    else b :: insertByHeight a t

/-- Embeds `available_formats.sort(key=lambda x: self.RESOLUTIONS[x])`
(youtube.py line 158) as a stable insertion sort on the key — Python's
`list.sort` is a stable comparison sort, and only the multiset of labels and
stability are observable. -/
def sortByHeight : List String → List String
  | [] => []
  | a :: t => insertByHeight a (sortByHeight t)

/-- Embeds the format-matching logic of `get_available_formats`
(youtube.py lines 138-158) as a function of the set of available stream
heights: first the tolerance-window pass over `RESOLUTIONS` in ascending
height order, then — only when that pass matched nothing — the fallback that
keeps every label of canonical height at most the maximum available height
(720 when no height is available), and finally the sort by canonical
height. -/
def availableQualities (availableHeights : List Int) : List String :=
  let matched :=
    (RESOLUTIONS.filter fun p => heightMatches availableHeights p.2).map Prod.fst
  let chosen :=
    if matched.isEmpty then
      (RESOLUTIONS.filter fun p =>
        decide (p.2 ≤ maxHeight availableHeights)).map Prod.fst
    else matched
  sortByHeight chosen

/-- Embeds one entry of the `info.get('formats', [])` list as consumed by
`get_available_formats` (youtube.py lines 130-134): only the `vcodec` and
`height` fields are read, either of which may be missing. -/
structure FormatInfo where
  vcodec : Option String
  height : Option Int

/-- Embeds the height-collection loop of youtube.py lines 129-134: keep the
height of every format whose `vcodec` is not the string `'none'` (a missing
`vcodec` passes that test) and whose `height` is present and truthy
(non-zero). -/
def collectHeights (formats : List FormatInfo) : List Int :=
  formats.foldr
    (fun fmt acc =>
      if fmt.vcodec == some "none" then acc
      else
        match fmt.height with
        | some h => if h == 0 then acc else h :: acc
        | none => acc)
    []

/-- Embeds the fixed default list returned by the `except` branch of
`get_available_formats` (youtube.py line 165). -/
def defaultFormats : List String :=
  ["144p", "240p", "360p", "480p", "720p", "1080p"]

/-- Embeds `get_available_formats` (youtube.py lines 107-165) as a function
of the metadata-probe outcome: the whole body runs under a `try` whose
`except Exception` returns the fixed default list, so a probe failure -- any
exception raised while extracting the format list -- is absorbed and the
function always returns a plain list. -/
def get_available_formats (probe : Except Unit (List FormatInfo)) : List String :=
  match probe with
  | Except.error _ => defaultFormats
  | Except.ok formats => availableQualities (collectHeights formats)

/-! ## Link validator (`bot/services/youtube.py` lines 22, 46-73)

Strings are modelled as `List Char`.  Python's `str.strip()` and the regex
class `\s` are modelled over the ASCII whitespace characters; the URL host
literals and the identifier characters of the pattern are all ASCII, so
nothing in the claims depends on the wider Unicode classes. -/

/-- ASCII whitespace as stripped by `str.strip()` and matched by `\s`. -/
def isSpaceChar (c : Char) : Bool :=
  c = ' ' || c = '\t' || c = '\n' || c = '\r' ||
  c = Char.ofNat 11 || c = Char.ofNat 12

/-- Character class of `re.sub(r'^[@\s]+', '', ...)` (youtube.py line 62). -/
def isAtOrSpace (c : Char) : Bool :=
  c = '@' || isSpaceChar c

/-- Boolean prefix test on character lists (Python `startswith` / the fixed
leading part of a regex alternative). -/
def isPrefixCh : List Char → List Char → Bool
  | [], _ => true
  | _ :: _, [] => false
  | c :: cs, d :: ds => c == d && isPrefixCh cs ds

/-- Embeds Python's substring test `sub in s`: some suffix of `l` starts
with `sub`. -/
def containsSub (sub : List Char) : List Char → Bool
  | [] => isPrefixCh sub []
  | c :: t => isPrefixCh sub (c :: t) || containsSub sub t

/-- Drops the trailing run of characters satisfying `p` (the right-hand half
of `str.strip()`). -/
def dropTrailing (p : Char → Bool) (l : List Char) : List Char :=
  (l.reverse.dropWhile p).reverse

/-- Embeds `url.strip()` (youtube.py line 60). -/
def pyStrip (l : List Char) : List Char :=
  dropTrailing isSpaceChar (l.dropWhile isSpaceChar)

/-- Embeds the URL cleaning of youtube.py lines 60-62: `strip()` followed by
`re.sub(r'^[@\s]+', '', ...)`. -/
def cleanUrl (l : List Char) : List Char :=
  (pyStrip l).dropWhile isAtOrSpace

/-- First recognized host substring (youtube.py line 65). -/
def youtubeHost : List Char := "youtube.com".toList

/-- Second recognized host substring (youtube.py line 65). -/
def youtuBeHost : List Char := "youtu.be".toList

/-- Identifier characters `[a-zA-Z0-9_-]` of `YOUTUBE_URL_PATTERN`
(youtube.py line 22). -/
def idChar (c : Char) : Bool :=
  ('a' ≤ c && c ≤ 'z') || ('A' ≤ c && c ≤ 'Z') || ('0' ≤ c && c ≤ '9') ||
  c = '_' || c = '-'

/-- Alternatives of the optional scheme group `(?:https?:\/\/)?`. -/
def schemeOpts : List (List Char) :=
  [[], "http://".toList, "https://".toList]

/-- Alternatives of the optional `(?:www\.)?` group. -/
def wwwOpts : List (List Char) :=
  [[], "www.".toList]

/-- Alternatives of the host-and-path group of `YOUTUBE_URL_PATTERN`:
`youtube.com/` followed by `watch?v=`, `embed/` or `v/`, or `youtu.be/`. -/
def hostPathOpts : List (List Char) :=
  ["youtube.com/watch?v=".toList, "youtube.com/embed/".toList,
   "youtube.com/v/".toList, "youtu.be/".toList]

/-- Embeds a match of `YOUTUBE_URL_PATTERN` anchored at the head of `l`:
some combination of optional scheme, optional `www.` and a host-and-path
alternative is a prefix of `l`, followed by 11 identifier characters.  The
trailing `(?:\S+)?` group is optional and can always match the empty string,
so it never constrains match success. -/
def matchesAt (l : List Char) : Bool :=
  schemeOpts.any fun sc => wwwOpts.any fun w => hostPathOpts.any fun hp =>
    let pre := sc ++ w ++ hp
    isPrefixCh pre l &&
      (((l.drop pre.length).take 11).length == 11 &&
        ((l.drop pre.length).take 11).all idChar)

/-- Embeds `re.search(YOUTUBE_URL_PATTERN, cleaned_url)` (youtube.py
line 70): the pattern matches at some position. -/
def regexSearch : List Char → Bool
  | [] => matchesAt []
  | c :: t => matchesAt (c :: t) || regexSearch t

/-- Embeds `is_valid_youtube_url` (youtube.py lines 46-73): empty input is
rejected, the cleaned URL is accepted if it contains either host substring,
and otherwise the regular expression decides. -/
def is_valid_youtube_url (url : List Char) : Bool :=
  if url.isEmpty then false
  else
    let cleaned_url := cleanUrl url
    if containsSub youtubeHost cleaned_url || containsSub youtuBeHost cleaned_url
    then true
    else regexSearch cleaned_url

/-! ## Media fetcher (`bot/services/youtube.py` lines 181-344) -/

/-- Embeds `self.RESOLUTIONS.get(quality, 720)` (youtube.py line 270): the
height cap for a requested quality label, defaulting to 720 for any string
that is not a key of `RESOLUTIONS`. -/
def heightFor (quality : String) : Int :=
  (RESOLUTIONS.lookup quality).getD 720

/-- Embeds the yt-dlp format string
`f"bestvideo[height<={height}]+bestaudio/best[height<={height}]"` built at
youtube.py line 274. -/
def format_code (quality : String) : String :=
  "bestvideo[height<=" ++ toString (heightFor quality) ++
    "]+bestaudio/best[height<=" ++ toString (heightFor quality) ++ "]"

/-- A candidate stream as seen by the external downloader's format selector:
pixel height, which tracks it carries, and a total preference score standing
for the selector's "best" ordering. -/
structure StreamFormat where
  height : Int
  hasVideo : Bool
  hasAudio : Bool
  score : Int
deriving DecidableEq

/-- Picks the candidate with the greatest preference score (first among
ties), the meaning of "best" in a yt-dlp format alternative. -/
def bestOf : List StreamFormat → Option StreamFormat
  | [] => none
  | f :: t =>
    match bestOf t with
    | none => some f
    | some g => if g.score ≤ f.score then some f else some g

/-- Modelled from the spec: the selection semantics of the format string
`bestvideo[height<=h]+bestaudio/best[height<=h]` that `download_video`
passes to the external yt-dlp collaborator — the selection itself is not
repository code.  Per spec §4.2, the selector favors the best video-only
stream capped at the target height merged with the best audio-only stream,
falling back to the best single combined stream capped at that height. -/
def selectStreams (h : Int) (formats : List StreamFormat) :
    Option (List StreamFormat) :=
  match bestOf (formats.filter fun s =>
          s.hasVideo && !s.hasAudio && decide (s.height ≤ h)),
        bestOf (formats.filter fun s => !s.hasVideo && s.hasAudio) with
  | some v, some a => some [v, a]
  | _, _ =>
    (bestOf (formats.filter fun s =>
        s.hasVideo && s.hasAudio && decide (s.height ≤ h))).map fun b => [b]

/-- Embeds `re.sub(r'[^\w\-_\. ]', '_', title)` (youtube.py lines 231, 318):
every character outside `[A-Za-z0-9_\-. ]` becomes an underscore (`\w` is
modelled over ASCII; `idChar` is exactly `[a-zA-Z0-9_-]`). -/
def sanitizeTitle (title : List Char) : List Char :=
  title.map fun c => if idChar c || c = '.' || c = ' ' then c else '_'

/-- Embeds `os.path.join(self.download_dir, name)` for a directory path with
no trailing separator. -/
def pathJoin (dir name : List Char) : List Char :=
  dir ++ "/".toList ++ name

/-- Boolean suffix test (Python `str.endswith`). -/
def endsWithCh (suf l : List Char) : Bool :=
  isPrefixCh suf.reverse l.reverse

/-- Extension `.mp4` expected of a completed video download
(youtube.py line 308). -/
def mp4Ext : List Char := ".mp4".toList

/-- Extension `.mp3` expected of a completed audio download
(youtube.py line 225). -/
def mp3Ext : List Char := ".mp3".toList

/-- Outcome of the blocking yt-dlp invocation as observed by
`download_video` / `download_audio`: either some step inside the `try`
raised (metadata probe, network or extractor failure), or the download ran
to completion and the download directory holds the given listing. -/
inductive FetchOutcome where
  | raised : FetchOutcome
  | completed : List (List Char) → FetchOutcome

/-- Embeds the directory scan of youtube.py lines 222-227 / 305-310: the
first listed file starting with the unique identifier and ending with the
expected extension, if any. -/
def find_downloaded (file_id ext : List Char) : List (List Char) → Option (List Char)
  | [] => none
  | f :: t =>
    if isPrefixCh file_id f && endsWithCh ext f then some f
    else find_downloaded file_id ext t

/-- Embeds `download_video` (youtube.py lines 248-333) after URL cleaning,
as a function of the generated identifier, the probed title, the requested
quality, the fetch outcome and the collision oracle `existsAt` (for
`os.path.exists`): any exception yields `(None, None)` via the catch-all
`except`; a missing output file also yields `(None, None)`; otherwise the
file is renamed to the sanitized title (suffixed with a slice of the
identifier on collision) and the new path and name are returned. -/
def download_video (download_dir file_id title quality : List Char)
    (outcome : FetchOutcome) (existsAt : List Char → Bool) :
    Option (List Char × List Char) :=
  match outcome with
  | FetchOutcome.raised => none
  | FetchOutcome.completed listing =>
    match find_downloaded file_id mp4Ext listing with
    | none => none
    | some _ =>
      let safe_title := sanitizeTitle title
      let new_filename := safe_title ++ "_".toList ++ quality ++ ".mp4".toList
      let new_path := pathJoin download_dir new_filename
      if existsAt new_path then
        let alt_filename := safe_title ++ "_".toList ++ quality ++ "_".toList ++
          file_id.take 8 ++ ".mp4".toList
        some (pathJoin download_dir alt_filename, alt_filename)
      else
        some (new_path, new_filename)

/-- Embeds `download_audio` (youtube.py lines 181-246), analogously to
`download_video` with extension `.mp3` and no quality component in the
renamed file. -/
def download_audio (download_dir file_id title : List Char)
    (outcome : FetchOutcome) (existsAt : List Char → Bool) :
    Option (List Char × List Char) :=
  match outcome with
  | FetchOutcome.raised => none
  | FetchOutcome.completed listing =>
    match find_downloaded file_id mp3Ext listing with
    | none => none
    | some _ =>
      let safe_title := sanitizeTitle title
      let new_filename := safe_title ++ ".mp3".toList
      let new_path := pathJoin download_dir new_filename
      if existsAt new_path then
        let alt_filename := safe_title ++ "_".toList ++ file_id.take 8 ++ ".mp3".toList
        some (pathJoin download_dir alt_filename, alt_filename)
      else
        some (new_path, new_filename)

/-- Reaction of the callback handlers to the fetch result (`callbacks.py`
lines 115 and 141-145, 189 and 215-219): a `(None, None)` result is turned
into a localized error message edit; a path/name pair enters the delivery
block. -/
inductive CallerStep where
  | deliverFile : CallerStep
  | showErrorMessage : CallerStep
deriving DecidableEq

/-- Embeds the caller's `if file_path and file_name:` branch on the fetch
result. -/
def handle_fetch_result (res : Option (List Char × List Char)) : CallerStep :=
  match res with
  | some _ => CallerStep.deliverFile
  | none => CallerStep.showErrorMessage

/-! ## File lifecycle (`bot/services/youtube.py` lines 368-380)

The filesystem is modelled as the list of existing paths. -/

/-- Embeds `os.remove` as observed through `cleanup_file`'s `try`: it either
removes the path from the filesystem or raises. -/
def os_remove (fs : List (List Char)) (path : List Char) (fails : Bool) :
    Except Unit (List (List Char)) :=
  if fails then Except.error ()
  else Except.ok (fs.filter fun q => !(q == path))

/-- Embeds `cleanup_file` (youtube.py lines 368-380): if the path exists it
is removed; any exception from the removal is caught and logged, leaving the
filesystem unchanged.  The function is total — the catch-all `except` means
no exception escapes to the caller. -/
def cleanup_file (fs : List (List Char)) (path : List Char) (removeFails : Bool) :
    List (List Char) :=
  if path ∈ fs then
    match os_remove fs path removeFails with
    | Except.ok fs' => fs'
    | Except.error _ => fs
  else fs

/-! ## Throttling middleware (`bot/middlewares/throttling.py`) -/

/-- Embeds `get_flag(data, "throttling_rate") or self.default_rate`
(throttling.py line 50): Python's `or` falls back to the default when the
flag is absent or zero. -/
def effective_rate (flag : Option ℚ) (default_rate : ℚ) : ℚ :=
  match flag with
  | none => default_rate
  | some r => if r = 0 then default_rate else r

/-- Embeds one pass of `ThrottlingMiddleware.__call__` (throttling.py lines
27-70) on an event carrying the given user at the given time, over the
`user_last_request` table (an association list whose first binding for a key
is its current value; a missing key reads as 0, matching
`self.user_last_request.get(user_id, 0)`).  The returned boolean is whether
the wrapped handler was invoked; `false` models the silent `return None`
drop, which produces no response. -/
def throttle_step (st : List (Int × ℚ)) (user : Option Int) (now rate : ℚ) :
    List (Int × ℚ) × Bool :=
  match user with
  | none => (st, true)
  | some uid =>
    if rate ≤ 0 then (st, true)
    else
      let last := (st.lookup uid).getD 0
      if now - last < rate then (st, false)
      else ((uid, now) :: st, true)

/-! ## Delivery section of the callback handlers (`bot/handlers/callbacks.py`) -/

/-- Chat-transport operations awaited during the delivery phase of the
audio branch of `callback_format` and of `callback_quality`. -/
inductive ChatOp where
  | editUploading : ChatOp      -- `edit_text("uploading")`, before the `try`
  | sendFile : ChatOp           -- `answer_audio` / `answer_video`
  | editComplete : ChatOp       -- `edit_text("download_complete")`
  | editErrorSend : ChatOp      -- `edit_text(error)` in the `except` branch
deriving DecidableEq

/-- Runs one awaited chat operation under an oracle telling which operations
raise `TelegramAPIError`. -/
def op_run (o : ChatOp → Bool) (op : ChatOp) : Except Unit Unit :=
  if o op then Except.error () else Except.ok ()

/-- Embeds the inner `try/except TelegramAPIError` of the delivery block
(callbacks.py lines 121-137 and 195-211): send the file, then edit the
completion message; a transport error from either is answered by editing an
error message, whose own failure propagates out of the block. -/
def inner_delivery (o : ChatOp → Bool) : Except Unit Unit :=
  match (do op_run o ChatOp.sendFile; op_run o ChatOp.editComplete :
      Except Unit Unit) with
  | Except.ok _ => Except.ok ()
  | Except.error _ => op_run o ChatOp.editErrorSend

/-- Embeds the `if file_path and file_name:` delivery section shared by the
audio branch of `callback_format` (callbacks.py lines 115-145) and by
`callback_quality` (lines 189-219), given the fetch result: on a successful
fetch the "uploading" status edit is awaited *before* the `try` whose
`finally` calls `cleanup_file`, so its failure leaves the section without
running the `finally`; otherwise `cleanup_file` runs exactly once, after
which any exception of the inner block continues to propagate.  Returns the
number of `cleanup_file` invocations and the exception, if any, leaving the
section.  On a failed fetch the `else:` branch edits an error message and
never touches `cleanup_file`. -/
def delivery_section (o : ChatOp → Bool)
    (fetched : Option (List Char × List Char)) : Nat × Except Unit Unit :=
  match fetched with
  | none => (0, Except.ok ())
  | some _ =>
    match op_run o ChatOp.editUploading with
    | Except.error e => (0, Except.error e)
    | Except.ok _ => (1, inner_delivery o)

/-! ## Helper lemmas about the resolver -/

theorem mem_insertByHeight {a x : String} {l : List String} :
    a ∈ insertByHeight x l ↔ a = x ∨ a ∈ l := by
  induction l with
  | nil => simp [insertByHeight]
  | cons b t ih =>
    by_cases h : resolutionKey x ≤ resolutionKey b
    · simp [insertByHeight, h]
    · simp only [insertByHeight, if_neg h, List.mem_cons, ih]
      tauto

theorem mem_sortByHeight {a : String} {l : List String} :
    a ∈ sortByHeight l ↔ a ∈ l := by
  induction l with
  | nil => simp [sortByHeight]
  | cons b t ih => simp [sortByHeight, mem_insertByHeight, ih]

theorem fst_injOn_RESOLUTIONS :
    ∀ p₁ ∈ RESOLUTIONS, ∀ p₂ ∈ RESOLUTIONS, p₁.1 = p₂.1 → p₁ = p₂ := by
  decide

/-! ## Helper lemmas about the link validator -/

theorem isPrefixCh_iff {s l : List Char} :
    isPrefixCh s l = true ↔ ∃ t, l = s ++ t := by
  induction s generalizing l with
  | nil => simp [isPrefixCh]
  | cons c cs ih =>
    cases l with
    | nil => simp [isPrefixCh]
    | cons d ds =>
      simp only [isPrefixCh, Bool.and_eq_true, beq_iff_eq, ih, List.cons_append]
      constructor
      · rintro ⟨rfl, t, rfl⟩
        exact ⟨t, rfl⟩
      · rintro ⟨t, h⟩
        injection h with h1 h2
        exact ⟨h1.symm, t, h2⟩

theorem containsSub_iff {sub l : List Char} :
    containsSub sub l = true ↔ ∃ s t, l = s ++ sub ++ t := by
  induction l with
  | nil =>
    simp only [containsSub, isPrefixCh_iff]
    constructor
    · rintro ⟨t, h⟩
      exact ⟨[], t, by simpa using h⟩
    · rintro ⟨s, t, h⟩
      rcases List.append_eq_nil.mp h.symm with ⟨h1, h2⟩
      rcases List.append_eq_nil.mp h1 with ⟨h3, h4⟩
      exact ⟨t, by simp [h4, h2]⟩
  | cons c t ih =>
    simp only [containsSub, Bool.or_eq_true, isPrefixCh_iff, ih]
    constructor
    · rintro (⟨r, h⟩ | ⟨s, u, h⟩)
      · exact ⟨[], r, by simpa using h⟩
      · exact ⟨c :: s, u, by simp [h]⟩
    · rintro ⟨s, u, h⟩
      cases s with
      | nil => exact Or.inl ⟨u, by simpa using h⟩
      | cons a as =>
        rw [List.cons_append, List.cons_append] at h
        injection h with h1 h2
        exact Or.inr ⟨as, u, h2⟩

theorem containsSub_nil_left (l : List Char) : containsSub [] l = true := by
  cases l <;> simp [containsSub, isPrefixCh]

theorem containsSub_cons_of {sub t : List Char} {c : Char}
    (h : containsSub sub t = true) : containsSub sub (c :: t) = true := by
  simp [containsSub, h]

theorem containsSub_dropWhile {p : Char → Bool} {sub l : List Char}
    (hsub : sub.all (fun c => !p c) = true) (h : containsSub sub l = true) :
    containsSub sub (l.dropWhile p) = true := by
  induction l with
  | nil => simpa using h
  | cons c t ih =>
    rw [List.dropWhile_cons]
    by_cases hp : p c = true
    · rw [if_pos hp]
      cases sub with
      | nil => exact containsSub_nil_left _
      | cons s ss =>
        have h' := h
        simp only [containsSub, Bool.or_eq_true] at h'
        rcases h' with hpre | hrec
        · simp only [isPrefixCh, Bool.and_eq_true, beq_iff_eq] at hpre
          have hs : (!p s) = true := List.all_eq_true.mp hsub s (by simp)
          rw [hpre.1, hp] at hs
          cases hs
        · exact ih hrec
    · rw [if_neg hp]
      exact h

theorem containsSub_of_dropWhile {p : Char → Bool} {sub l : List Char}
    (h : containsSub sub (l.dropWhile p) = true) : containsSub sub l = true := by
  induction l with
  | nil => simpa using h
  | cons c t ih =>
    rw [List.dropWhile_cons] at h
    by_cases hp : p c = true
    · rw [if_pos hp] at h
      exact containsSub_cons_of (ih h)
    · rwa [if_neg hp] at h

theorem containsSub_reverse {sub l : List Char} :
    containsSub sub.reverse l.reverse = true ↔ containsSub sub l = true := by
  rw [containsSub_iff, containsSub_iff]
  constructor
  · rintro ⟨s, t, h⟩
    refine ⟨t.reverse, s.reverse, ?_⟩
    have h' := congrArg List.reverse h
    simpa [List.reverse_append, List.append_assoc] using h'
  · rintro ⟨s, t, h⟩
    refine ⟨t.reverse, s.reverse, ?_⟩
    rw [h]
    simp [List.reverse_append, List.append_assoc]

theorem containsSub_dropTrailing {p : Char → Bool} {sub l : List Char}
    (hsub : sub.all (fun c => !p c) = true) (h : containsSub sub l = true) :
    containsSub sub (dropTrailing p l) = true := by
  have hsub' : sub.reverse.all (fun c => !p c) = true := by
    simpa using hsub
  have h1 : containsSub sub.reverse l.reverse = true := containsSub_reverse.mpr h
  have h2 := containsSub_dropWhile hsub' h1
  have h3 : containsSub sub.reverse ((l.reverse.dropWhile p).reverse).reverse = true := by
    simpa using h2
  exact containsSub_reverse.mp h3

theorem containsSub_of_dropTrailing {p : Char → Bool} {sub l : List Char}
    (h : containsSub sub (dropTrailing p l) = true) : containsSub sub l = true := by
  have h1 : containsSub sub.reverse (l.reverse.dropWhile p) = true := by
    have h' := containsSub_reverse.mpr h
    simpa [dropTrailing] using h'
  have h2 := containsSub_of_dropWhile h1
  exact containsSub_reverse.mp h2

theorem containsSub_cleanUrl {sub l : List Char}
    (hat : sub.all (fun c => !isAtOrSpace c) = true)
    (hsp : sub.all (fun c => !isSpaceChar c) = true)
    (h : containsSub sub l = true) : containsSub sub (cleanUrl l) = true :=
  containsSub_dropWhile hat
    (containsSub_dropTrailing hsp (containsSub_dropWhile hsp h))

theorem containsSub_of_cleanUrl {sub l : List Char}
    (h : containsSub sub (cleanUrl l) = true) : containsSub sub l = true :=
  containsSub_of_dropWhile
    (containsSub_of_dropTrailing (containsSub_of_dropWhile h))

theorem host_of_matchesAt {l : List Char} (h : matchesAt l = true) :
    containsSub youtubeHost l = true ∨ containsSub youtuBeHost l = true := by
  unfold matchesAt at h
  rw [List.any_eq_true] at h
  obtain ⟨sc, _, h⟩ := h
  rw [List.any_eq_true] at h
  obtain ⟨w, _, h⟩ := h
  rw [List.any_eq_true] at h
  obtain ⟨hp, hhp, h⟩ := h
  simp only [Bool.and_eq_true] at h
  obtain ⟨hpre, -⟩ := h
  obtain ⟨r, hr⟩ := isPrefixCh_iff.mp hpre
  simp only [hostPathOpts, List.mem_cons, List.not_mem_nil, or_false] at hhp
  rcases hhp with rfl | rfl | rfl | rfl
  · left
    have e : ("youtube.com/watch?v=".toList : List Char) =
        youtubeHost ++ "/watch?v=".toList := by decide
    refine containsSub_iff.mpr ⟨sc ++ w, "/watch?v=".toList ++ r, ?_⟩
    rw [hr, e]
    simp [List.append_assoc]
  · left
    have e : ("youtube.com/embed/".toList : List Char) =
        youtubeHost ++ "/embed/".toList := by decide
    refine containsSub_iff.mpr ⟨sc ++ w, "/embed/".toList ++ r, ?_⟩
    rw [hr, e]
    simp [List.append_assoc]
  · left
    have e : ("youtube.com/v/".toList : List Char) =
        youtubeHost ++ "/v/".toList := by decide
    refine containsSub_iff.mpr ⟨sc ++ w, "/v/".toList ++ r, ?_⟩
    rw [hr, e]
    simp [List.append_assoc]
  · right
    have e : ("youtu.be/".toList : List Char) =
        youtuBeHost ++ "/".toList := by decide
    refine containsSub_iff.mpr ⟨sc ++ w, "/".toList ++ r, ?_⟩
    rw [hr, e]
    simp [List.append_assoc]

theorem host_of_regexSearch {l : List Char} (h : regexSearch l = true) :
    containsSub youtubeHost l = true ∨ containsSub youtuBeHost l = true := by
  induction l with
  | nil => exact host_of_matchesAt (by simpa [regexSearch] using h)
  | cons c t ih =>
    have h' : matchesAt (c :: t) = true ∨ regexSearch t = true := by
      simpa [regexSearch, Bool.or_eq_true] using h
    rcases h' with h1 | h2
    · exact host_of_matchesAt h1
    · rcases ih h2 with hh | hh
      · exact Or.inl (containsSub_cons_of hh)
      · exact Or.inr (containsSub_cons_of hh)

/-! ## Claim theorems: format resolver -/

/-- C1: with an empty set of available stream heights, `availableQualities`
returns the fallback list for an assumed maximum height of 720 — exactly the
quality labels of canonical height at most 720, in ascending canonical-height
order. -/
theorem available_qualities_empty :
    availableQualities [] = ["144p", "240p", "360p", "480p", "720p"]
    ∧ availableQualities [] =
        (RESOLUTIONS.filter fun p => decide (p.2 ≤ 720)).map Prod.fst
    ∧ List.Chain' (· < ·) ((availableQualities []).map resolutionKey) := by
  refine ⟨by decide, by decide, ?_⟩
  have e : (availableQualities []).map resolutionKey = [144, 240, 360, 480, 720] := by
    decide
  rw [e]
  norm_num [List.chain'_cons]

/-- C4, counterexample: with available heights {4320}, the label `144p` is
included by `availableQualities` (through the fallback branch) even though no
available height is within the tolerance window of 144, so inclusion is not
equivalent to the existence of a within-tolerance available height. -/
theorem available_qualities_fallback_breaks_tolerance_iff :
    "144p" ∈ availableQualities [4320]
    ∧ heightMatches [4320] 144 = false := by
  constructor
  · decide
  · decide

/-- C4, amended: whenever at least one quality label is within tolerance of
some available height (so the fallback branch does not fire), a label is
included exactly when some available height differs from its canonical height
by at most `max(height / 10, 50)`; and for available heights {360, 480, 720}
the result is exactly `[360p, 480p, 720p]`. -/
theorem available_qualities_tolerance_iff :
    (∀ (avail : List Int),
      (RESOLUTIONS.any fun p => heightMatches avail p.2) = true →
      ∀ q h, (q, h) ∈ RESOLUTIONS →
        (q ∈ availableQualities avail ↔ heightMatches avail h = true))
    ∧ availableQualities [360, 480, 720] = ["360p", "480p", "720p"] := by
  constructor
  · intro avail hany q h hqh
    obtain ⟨p, hpR, hp⟩ := List.any_eq_true.mp hany
    have hmatched :
        ((RESOLUTIONS.filter fun p => heightMatches avail p.2).map
          Prod.fst).isEmpty = false := by
      have : p ∈ RESOLUTIONS.filter fun p => heightMatches avail p.2 :=
        List.mem_filter.mpr ⟨hpR, hp⟩
      rcases hmem : RESOLUTIONS.filter fun p => heightMatches avail p.2 with
        _ | ⟨a, t⟩
      · rw [hmem] at this; cases this
      · rw [hmem]; rfl
    unfold availableQualities
    simp only [hmatched, Bool.false_eq_true, if_false, mem_sortByHeight]
    constructor
    · intro hq
      obtain ⟨r, hrf, hrq⟩ := List.mem_map.mp hq
      obtain ⟨hrR, hr⟩ := List.mem_filter.mp hrf
      have : r = (q, h) := fst_injOn_RESOLUTIONS r hrR (q, h) hqh hrq
      rw [this] at hr
      exact hr
    · intro hm
      exact List.mem_map.mpr
        ⟨(q, h), List.mem_filter.mpr ⟨hqh, hm⟩, rfl⟩
  · decide

/-- C4, witness: the amended theorem applied at available heights
{360, 480, 720} and the label `1080p`. -/
theorem available_qualities_tolerance_iff_witness :
    ("1080p" ∈ availableQualities [360, 480, 720]
      ↔ heightMatches [360, 480, 720] 1080 = true)
    ∧ availableQualities [360, 480, 720] = ["360p", "480p", "720p"] :=
  ⟨available_qualities_tolerance_iff.1 [360, 480, 720] (by decide)
      "1080p" 1080 (by decide),
   available_qualities_tolerance_iff.2⟩

/-- C6: on any upstream metadata-probe failure (the `except Exception`
branch of `get_available_formats`), the resolver returns the fixed default
list `[144p, 240p, 360p, 480p, 720p, 1080p]`; no error is propagated since
the function totally returns a plain list. -/
theorem get_available_formats_probe_failure :
    get_available_formats (Except.error ()) = defaultFormats
    ∧ defaultFormats = ["144p", "240p", "360p", "480p", "720p", "1080p"] :=
  ⟨rfl, rfl⟩

/-! ## Claim theorems: link validator -/

/-- C5: `is_valid_youtube_url` is total (it always returns one of the two
booleans; the embedding is a total function, mirroring that the Python body
has no raising operation); every string containing one of the two known host
substrings is accepted; and every string containing neither host substring
and not matched by the video-identifier pattern is rejected.  (A pattern
match requires one of the host substrings, so the third conjunct's pattern
hypothesis is not even needed.) -/
theorem is_valid_youtube_url_spec (url : List Char) :
    (is_valid_youtube_url url = true ∨ is_valid_youtube_url url = false)
    ∧ (containsSub youtubeHost url = true ∨ containsSub youtuBeHost url = true →
        is_valid_youtube_url url = true)
    ∧ (containsSub youtubeHost url = false → containsSub youtuBeHost url = false →
        regexSearch url = false → is_valid_youtube_url url = false) := by
  refine ⟨Bool.eq_false_or_eq_true _, ?_, ?_⟩
  · intro h
    have hne : url.isEmpty = false := by
      cases url with
      | nil =>
        rcases h with h | h
        · exact absurd h (by decide)
        · exact absurd h (by decide)
      | cons c t => rfl
    have hclean : (containsSub youtubeHost (cleanUrl url)
        || containsSub youtuBeHost (cleanUrl url)) = true := by
      rcases h with h | h
      · have := containsSub_cleanUrl (by decide) (by decide) h
        simp [this]
      · have := containsSub_cleanUrl (by decide) (by decide) h
        simp [this]
    simp only [is_valid_youtube_url, hne, Bool.false_eq_true, if_false]
    simp [hclean]
  · intro h1 h2 _hsearch
    have hc1 : containsSub youtubeHost (cleanUrl url) = false := by
      cases hx : containsSub youtubeHost (cleanUrl url) with
      | false => rfl
      | true =>
        have := containsSub_of_cleanUrl hx
        rw [h1] at this
        cases this
    have hc2 : containsSub youtuBeHost (cleanUrl url) = false := by
      cases hx : containsSub youtuBeHost (cleanUrl url) with
      | false => rfl
      | true =>
        have := containsSub_of_cleanUrl hx
        rw [h2] at this
        cases this
    have hsc : regexSearch (cleanUrl url) = false := by
      cases hx : regexSearch (cleanUrl url) with
      | false => rfl
      | true =>
        rcases host_of_regexSearch hx with hh | hh
        · rw [hc1] at hh; cases hh
        · rw [hc2] at hh; cases hh
    by_cases hurl : url.isEmpty = true
    · simp [is_valid_youtube_url, hurl]
    · simp [is_valid_youtube_url, hurl, hc1, hc2, hsc]

/-- C5, witness: the theorem applied to a string containing a host substring
(accepted) and to a host-free, pattern-free string (rejected). -/
theorem is_valid_youtube_url_spec_witness :
    is_valid_youtube_url ("  @https://www.youtube.com/watch?v=dQw4w9WgXcQ".toList) = true
    ∧ is_valid_youtube_url ("hello world".toList) = false :=
  ⟨(is_valid_youtube_url_spec _).2.1 (Or.inl (by decide)),
   (is_valid_youtube_url_spec _).2.2 (by decide) (by decide) (by decide)⟩

/-! ## Helper lemmas about the fetcher -/

theorem bestOf_mem {l : List StreamFormat} {x : StreamFormat}
    (h : bestOf l = some x) : x ∈ l := by
  induction l with
  | nil => cases h
  | cons f t ih =>
    cases hb : bestOf t with
    | none =>
      simp only [bestOf, hb] at h
      injection h with h
      exact h ▸ List.mem_cons_self f t
    | some g =>
      simp only [bestOf, hb] at h
      by_cases hsc : g.score ≤ f.score
      · rw [if_pos hsc] at h
        injection h with h
        exact h ▸ List.mem_cons_self f t
      · rw [if_neg hsc] at h
        injection h with h
        exact List.mem_cons_of_mem _ (ih (h ▸ hb))

theorem find_downloaded_eq_none {file_id ext : List Char}
    {listing : List (List Char)}
    (h : ∀ f ∈ listing, (isPrefixCh file_id f && endsWithCh ext f) = false) :
    find_downloaded file_id ext listing = none := by
  induction listing with
  | nil => rfl
  | cons f t ih =>
    have hf := h f (by simp)
    simp only [find_downloaded, hf, Bool.false_eq_true, if_false]
    exact ih fun g hg => h g (by simp [hg])

/-! ## Claim theorems: media fetcher and caller -/

/-- C2, counterexample: the two failure modes of `download_video` — an
exception from extraction (`FetchOutcome.raised`) and a completed run that
produced no matching output file (`FetchOutcome.completed []`) — yield the
*same* result `(None, None)` (embedded as `none`), so the failure carries no
`FetchError`-style distinction between the two cases. -/
theorem download_failure_modes_indistinguishable :
    download_video ("downloads".toList) ("abc".toList) ("title".toList)
        ("720p".toList) FetchOutcome.raised (fun _ => false)
      = download_video ("downloads".toList) ("abc".toList) ("title".toList)
        ("720p".toList) (FetchOutcome.completed []) (fun _ => false)
    ∧ download_video ("downloads".toList) ("abc".toList) ("title".toList)
        ("720p".toList) FetchOutcome.raised (fun _ => false) = none :=
  ⟨rfl, rfl⟩

/-- C2, amended: when a download fails — whether because extraction raised
or because no listed file matches the identifier prefix and expected
extension — `download_video` and `download_audio` both return the single
undistinguished failure value `(None, None)` (embedded as `none`), and the
callback handlers turn that value into a user-visible error message edit
rather than raising. -/
theorem download_failure_reported (download_dir file_id title quality : List Char)
    (listing : List (List Char)) (existsAt : List Char → Bool)
    (hmp4 : ∀ f ∈ listing,
      (isPrefixCh file_id f && endsWithCh mp4Ext f) = false)
    (hmp3 : ∀ f ∈ listing,
      (isPrefixCh file_id f && endsWithCh mp3Ext f) = false) :
    download_video download_dir file_id title quality
        FetchOutcome.raised existsAt = none
    ∧ download_video download_dir file_id title quality
        (FetchOutcome.completed listing) existsAt = none
    ∧ download_audio download_dir file_id title
        FetchOutcome.raised existsAt = none
    ∧ download_audio download_dir file_id title
        (FetchOutcome.completed listing) existsAt = none
    ∧ handle_fetch_result none = CallerStep.showErrorMessage := by
  refine ⟨rfl, ?_, rfl, ?_, rfl⟩
  · simp only [download_video]
    rw [find_downloaded_eq_none hmp4]
  · simp only [download_audio]
    rw [find_downloaded_eq_none hmp3]

/-- C2, witness: the amended theorem at a directory listing holding only an
unrelated file. -/
theorem download_failure_reported_witness :
    download_video ("downloads".toList) ("abc".toList) ("t".toList)
        ("720p".toList) (FetchOutcome.completed [("x.txt".toList)])
        (fun _ => false) = none
    ∧ download_audio ("downloads".toList) ("abc".toList) ("t".toList)
        (FetchOutcome.completed [("x.txt".toList)]) (fun _ => false) = none :=
  ⟨(download_failure_reported ("downloads".toList) ("abc".toList) ("t".toList)
      ("720p".toList) [("x.txt".toList)] (fun _ => false)
      (by decide) (by decide)).2.1,
   (download_failure_reported ("downloads".toList) ("abc".toList) ("t".toList)
      ("720p".toList) [("x.txt".toList)] (fun _ => false)
      (by decide) (by decide)).2.2.2.1⟩

/-- C7: for target `1080p` the format string is exactly
`bestvideo[height<=1080]+bestaudio/best[height<=1080]`, and under the
spec-modelled selector semantics of that string every selected stream
carrying video — in the preferred video-only-plus-audio pair as in the
combined-stream fallback — has height at most 1080. -/
theorem format_1080_cap :
    format_code "1080p" = "bestvideo[height<=1080]+bestaudio/best[height<=1080]"
    ∧ heightFor "1080p" = 1080
    ∧ ∀ (formats sel : List StreamFormat),
        selectStreams (heightFor "1080p") formats = some sel →
        ∀ s ∈ sel, s.hasVideo = true → s.height ≤ 1080 := by
  refine ⟨rfl, rfl, ?_⟩
  intro formats sel hsel s hs hv
  rw [show heightFor "1080p" = 1080 from rfl] at hsel
  unfold selectStreams at hsel
  cases hbv : bestOf (formats.filter fun s =>
      s.hasVideo && !s.hasAudio && decide (s.height ≤ 1080)) with
  | some v =>
    cases hba : bestOf (formats.filter fun s => !s.hasVideo && s.hasAudio) with
    | some a =>
      rw [hbv, hba] at hsel
      injection hsel with hsel
      subst hsel
      rcases List.mem_cons.mp hs with rfl | hs
      · have hin := (List.mem_filter.mp (bestOf_mem hbv)).2
        simp only [Bool.and_eq_true, decide_eq_true_eq] at hin
        exact hin.2
      · rcases List.mem_cons.mp hs with rfl | hs
        · have hin := (List.mem_filter.mp (bestOf_mem hba)).2
          simp only [Bool.and_eq_true] at hin
          rw [hv] at hin
          cases hin.1
        · cases hs
    | none =>
      rw [hbv, hba] at hsel
      cases hbc : bestOf (formats.filter fun s =>
          s.hasVideo && s.hasAudio && decide (s.height ≤ 1080)) with
      | none => rw [hbc] at hsel; cases hsel
      | some b =>
        rw [hbc] at hsel
        injection hsel with hsel
        subst hsel
        rcases List.mem_cons.mp hs with rfl | hs
        · have hin := (List.mem_filter.mp (bestOf_mem hbc)).2
          simp only [Bool.and_eq_true, decide_eq_true_eq] at hin
          exact hin.2
        · cases hs
  | none =>
    rw [hbv] at hsel
    cases hbc : bestOf (formats.filter fun s =>
        s.hasVideo && s.hasAudio && decide (s.height ≤ 1080)) with
    | none => rw [hbc] at hsel; cases hsel
    | some b =>
      rw [hbc] at hsel
      injection hsel with hsel
      subst hsel
      rcases List.mem_cons.mp hs with rfl | hs
      · have hin := (List.mem_filter.mp (bestOf_mem hbc)).2
        simp only [Bool.and_eq_true, decide_eq_true_eq] at hin
        exact hin.2
      · cases hs

/-- C7, witness: the selector at a concrete format list — a 720-height
video-only stream and an audio-only stream — picks the pair, and the
theorem bounds the video stream's height. -/
theorem format_1080_cap_witness :
    selectStreams (heightFor "1080p")
        [⟨720, true, false, 5⟩, ⟨0, false, true, 3⟩]
      = some [⟨720, true, false, 5⟩, ⟨0, false, true, 3⟩]
    ∧ (⟨720, true, false, 5⟩ : StreamFormat).height ≤ 1080 :=
  ⟨rfl,
   format_1080_cap.2.2 [⟨720, true, false, 5⟩, ⟨0, false, true, 3⟩]
     [⟨720, true, false, 5⟩, ⟨0, false, true, 3⟩] rfl
     ⟨720, true, false, 5⟩ (by decide) rfl⟩

/-- C10: any quality string that is not one of the eight `RESOLUTIONS` keys
silently falls back to a height cap of 720 — `download_video` builds the
same well-formed format string as for `720p` instead of rejecting the
label. -/
theorem download_video_unknown_quality (q : String)
    (h : ∀ p ∈ RESOLUTIONS, q ≠ p.1) :
    heightFor q = 720
    ∧ format_code q = "bestvideo[height<=720]+bestaudio/best[height<=720]" := by
  have e1 : (q == "144p") = false :=
    beq_eq_false_iff_ne.mpr (h ("144p", 144) (by decide))
  have e2 : (q == "240p") = false :=
    beq_eq_false_iff_ne.mpr (h ("240p", 240) (by decide))
  have e3 : (q == "360p") = false :=
    beq_eq_false_iff_ne.mpr (h ("360p", 360) (by decide))
  have e4 : (q == "480p") = false :=
    beq_eq_false_iff_ne.mpr (h ("480p", 480) (by decide))
  have e5 : (q == "720p") = false :=
    beq_eq_false_iff_ne.mpr (h ("720p", 720) (by decide))
  have e6 : (q == "1080p") = false :=
    beq_eq_false_iff_ne.mpr (h ("1080p", 1080) (by decide))
  have e7 : (q == "1440p") = false :=
    beq_eq_false_iff_ne.mpr (h ("1440p", 1440) (by decide))
  have e8 : (q == "2160p") = false :=
    beq_eq_false_iff_ne.mpr (h ("2160p", 2160) (by decide))
  have hl : RESOLUTIONS.lookup q = none := by
    simp [RESOLUTIONS, List.lookup, e1, e2, e3, e4, e5, e6, e7, e8]
  have h720 : heightFor q = 720 := by simp [heightFor, hl]
  refine ⟨h720, ?_⟩
  unfold format_code
  rw [h720]
  rfl

/-- C10, witness: the theorem applied to the unknown label `bogus`. -/
theorem download_video_unknown_quality_witness :
    heightFor "bogus" = 720
    ∧ format_code "bogus" = "bestvideo[height<=720]+bestaudio/best[height<=720]" :=
  download_video_unknown_quality "bogus" (by decide)

/-! ## Claim theorems: file lifecycle -/

/-- C8: `cleanup_file` is idempotent and never raises: on an absent path it
leaves the filesystem unchanged, a failing deletion is swallowed leaving the
filesystem unchanged, a second call after a successful cleanup is a no-op,
and no path other than the given one is ever affected.  Totality of the
embedding (it returns a filesystem, not an `Except`) mirrors the catch-all
`except` of the source. -/
theorem cleanup_file_contract :
    (∀ (fs : List (List Char)) path f,
        path ∉ fs → cleanup_file fs path f = fs)
    ∧ (∀ (fs : List (List Char)) path, cleanup_file fs path true = fs)
    ∧ (∀ (fs : List (List Char)) path f,
        cleanup_file (cleanup_file fs path false) path f
          = cleanup_file fs path false)
    ∧ (∀ (fs : List (List Char)) path f q,
        q ≠ path → (q ∈ cleanup_file fs path f ↔ q ∈ fs)) := by
  have habsent : ∀ (fs : List (List Char)) path f,
      path ∉ fs → cleanup_file fs path f = fs := by
    intro fs path f h
    simp [cleanup_file, h]
  have hfail : ∀ (fs : List (List Char)) path,
      cleanup_file fs path true = fs := by
    intro fs path
    by_cases hc : path ∈ fs
    · simp [cleanup_file, hc, os_remove]
    · simp [cleanup_file, hc]
  refine ⟨habsent, hfail, ?_, ?_⟩
  · intro fs path f
    by_cases hc : path ∈ fs
    · have h1 : cleanup_file fs path false = fs.filter fun q => !(q == path) := by
        simp [cleanup_file, hc, os_remove]
      have h2 : path ∉ fs.filter fun q => !(q == path) := by
        intro hmem
        have := (List.mem_filter.mp hmem).2
        simp at this
      rw [h1]
      exact habsent _ _ f h2
    · rw [habsent fs path false hc, habsent fs path f hc]
  · intro fs path f q hq
    by_cases hc : path ∈ fs
    · cases f with
      | true => simp [cleanup_file, hc, os_remove]
      | false =>
        simp [cleanup_file, hc, os_remove, List.mem_filter, hq]
    · simp [cleanup_file, hc]

/-- C8, witness: the contract at concrete filesystems — absent path,
double cleanup with a failing second deletion, and preservation of an
unrelated file. -/
theorem cleanup_file_contract_witness :
    cleanup_file [("a.mp4".toList)] ("b.mp4".toList) false = [("a.mp4".toList)]
    ∧ cleanup_file (cleanup_file [("a.mp4".toList)] ("a.mp4".toList) false)
        ("a.mp4".toList) true
      = cleanup_file [("a.mp4".toList)] ("a.mp4".toList) false
    ∧ (("a.mp4".toList) ∈ cleanup_file [("a.mp4".toList), ("b.mp4".toList)]
          ("b.mp4".toList) false
        ↔ ("a.mp4".toList) ∈ [("a.mp4".toList), ("b.mp4".toList)]) :=
  ⟨cleanup_file_contract.1 [("a.mp4".toList)] ("b.mp4".toList) false (by decide),
   cleanup_file_contract.2.2.1 [("a.mp4".toList)] ("a.mp4".toList) true,
   cleanup_file_contract.2.2.2 [("a.mp4".toList), ("b.mp4".toList)]
     ("b.mp4".toList) false ("a.mp4".toList) (by decide)⟩

/-! ## Claim theorems: throttling -/

/-- C9: when a request from a user is accepted at time `t₁` and a second
request from the same user arrives at time `t₂` with `t₂ - t₁` below the
rate interval, the middleware drops the second request — the wrapped handler
is not invoked (the returned flag is `false`, embedding the silent
`return None`, so no response is produced) and the `user_last_request` table
is left exactly as the first, accepted request set it: only accepted
requests update the stored timestamp. -/
theorem throttle_debounce (st : List (Int × ℚ)) (uid : Int) (t₁ t₂ rate : ℚ)
    (hrate : 0 < rate)
    (hacc : (throttle_step st (some uid) t₁ rate).2 = true)
    (hsoon : t₂ - t₁ < rate) :
    throttle_step (throttle_step st (some uid) t₁ rate).1 (some uid) t₂ rate
      = ((throttle_step st (some uid) t₁ rate).1, false) := by
  have hr : ¬rate ≤ 0 := not_le.mpr hrate
  by_cases hc : t₁ - ((st.lookup uid).getD 0) < rate
  · exfalso
    simp [throttle_step, hr, hc] at hacc
  · have hst : (throttle_step st (some uid) t₁ rate).1 = (uid, t₁) :: st := by
      simp [throttle_step, hr, hc]
    rw [hst]
    simp [throttle_step, hr, List.lookup, hsoon]

/-- C9, witness: a first request at time 10 against an empty table is
accepted; a second one at time 10.25 with a half-second interval is dropped
with the table unchanged. -/
theorem throttle_debounce_witness :
    throttle_step (throttle_step [] (some 1) 10 (1/2)).1 (some 1) (41/4) (1/2)
      = ((throttle_step [] (some 1) 10 (1/2)).1, false) :=
  throttle_debounce [] 1 10 (41/4) (1/2) (by norm_num)
    (by norm_num [throttle_step, List.lookup]) (by norm_num)

/-! ## Claim theorems: delivery cleanup -/

/-- C3, counterexample: with a successful fetch, the exit path on which the
pre-delivery "uploading" status edit raises leaves the delivery section
without a single `cleanup_file` invocation — that edit is awaited before the
`try` whose `finally` performs cleanup, so cleanup is not invoked on every
exit path. -/
theorem cleanup_skipped_when_status_edit_fails :
    (delivery_section
        (fun op => op == ChatOp.editUploading)
        (some ("file.mp4".toList, "name.mp4".toList))).1 = 0
    ∧ (delivery_section
        (fun op => op == ChatOp.editUploading)
        (some ("file.mp4".toList, "name.mp4".toList))).1 ≠ 1 :=
  ⟨rfl, by decide⟩

/-- C3, amended: after a successful fetch, provided the pre-delivery
"uploading" status edit does not raise, `cleanup_file` is invoked exactly
once on every exit path of the delivery block — whether the outbound file
transfer, the completion edit and the error edit succeed or fail; if that
status edit itself raises, the section is exited with no cleanup. -/
theorem cleanup_exactly_once_in_delivery (o : ChatOp → Bool)
    (x : List Char × List Char) (h : o ChatOp.editUploading = false) :
    (delivery_section o (some x)).1 = 1 := by
  simp [delivery_section, op_run, h]

/-- C3, witness: the amended theorem under an oracle failing every chat
operation except the "uploading" edit — file send, completion edit and
error edit all raise, yet cleanup runs exactly once. -/
theorem cleanup_exactly_once_in_delivery_witness :
    (delivery_section
        (fun op => !(op == ChatOp.editUploading))
        (some ("file.mp4".toList, "name.mp4".toList))).1 = 1 :=
  cleanup_exactly_once_in_delivery
    (fun op => !(op == ChatOp.editUploading))
    ("file.mp4".toList, "name.mp4".toList) (by decide)

end YtDlBot
